import Mathlib

/-!
# Conway's Game of Life benchmark (`main.cpp`): the grid update engine

A shallow embedding of `count_live_neighbors`, `update_grid`, `print_grid`,
`initialize_grid` and the validation and driver loop of `main`, followed by the
properties of the update step: rule correctness, neighbour counting, totality,
order independence, the blinker and the block, rendering and driver validation.

Conventions of the embedding:

* `std::vector<std::vector<int>>` is `List (List Int)`.
* `int` coordinates and dimensions are `Int`. Loop counters range over
  `0 .. HEIGHT-1` and `0 .. WIDTH-1`, so `y + dy` and `x + dx` stay within the
  `int` range and are not wrapped.
* The accumulator `live_neighbors += grid[ny][nx]` is wrapped to 32 bits
  (`wrap32`), because cell contents are arbitrary `int` values.
* `operator[]` outside the bounds of a vector is an error: the embedding
  returns `none`. Building a vector with a negative size is an error as well.
-/

namespace GameOfLife

/-- The grid type `std::vector<std::vector<int>>`: a list of rows. -/
abbrev Grid := List (List Int)

/-- Two's complement wrap of an integer to the 32-bit `int` range. -/
def wrap32 (v : Int) : Int := (v + 2147483648) % 4294967296 - 2147483648

/-- Reading `grid[y][x]`; `none` when an index is outside its vector. -/
def readCell (grid : Grid) (y x : Int) : Option Int :=
  if 0 ≤ y ∧ 0 ≤ x then
    match grid[y.toNat]? with
    | some row => row[x.toNat]?
    | none => none
  else none

/-- The assignment `grid[y][x] = v`; `none` when an index is outside its vector. -/
def writeCell (grid : Grid) (y x v : Int) : Option Grid :=
  if 0 ≤ y ∧ 0 ≤ x then
    match grid[y.toNat]? with
    | some row =>
      if x.toNat < row.length then some (grid.set y.toNat (row.set x.toNat v)) else none
    | none => none
  else none

/-- The values taken by the counter of `for (int i = 0; i < n; ++i)`. -/
def loopRange (n : Int) : List Int := (List.range n.toNat).map Int.ofNat

/-- The values taken by the counter of `for (int d = -1; d <= 1; ++d)`. -/
def deltas : List Int := [-1, 0, 1]

/-- The body of the inner loop of `count_live_neighbors` for one offset `(dy, dx)`,
as a function of the running total `live_neighbors`. -/
def neighbor_body (grid : Grid) (y x HEIGHT WIDTH : Int) (dy dx : Int)
    (live_neighbors : Int) : Option Int :=
  if dy = 0 ∧ dx = 0 then some live_neighbors
  else
    let ny := y + dy
    let nx := x + dx
    if ny ≥ 0 ∧ ny < HEIGHT ∧ nx ≥ 0 ∧ nx < WIDTH then
      (readCell grid ny nx).map (fun c => wrap32 (live_neighbors + c))
    else some live_neighbors

/-- The function `count_live_neighbors(grid, y, x, HEIGHT, WIDTH)`. -/
def count_live_neighbors (grid : Grid) (y x HEIGHT WIDTH : Int) : Option Int :=
  deltas.foldlM
    (fun live dy => deltas.foldlM
      (fun live dx => neighbor_body grid y x HEIGHT WIDTH dy dx live) live)
    0

/-- The constructor call `std::vector<std::vector<int>>(HEIGHT, std::vector<int>(WIDTH))`:
a zero-filled grid, or an error for a negative size. -/
def make_grid (HEIGHT WIDTH : Int) : Option Grid :=
  if 0 ≤ HEIGHT ∧ 0 ≤ WIDTH then
    some (List.replicate HEIGHT.toNat (List.replicate WIDTH.toNat 0))
  else none

/-- The body of the loop nest of `update_grid` for the cell `(y, x)`: it reads
`current_grid` only and writes `next_grid[y][x]`. -/
def cell_body (current_grid : Grid) (HEIGHT WIDTH : Int) (next_grid : Grid) (y x : Int) :
    Option Grid :=
  match count_live_neighbors current_grid y x HEIGHT WIDTH with
  | none => none
  | some neighbors =>
    match readCell current_grid y x with
    | none => none
    | some c =>
      if c = 1 then
        writeCell next_grid y x (if neighbors = 2 ∨ neighbors = 3 then 1 else 0)
      else
        writeCell next_grid y x (if neighbors = 3 then 1 else 0)

/-- The function `update_grid(current_grid, HEIGHT, WIDTH)`, its loop nest run in
row-major order. -/
def update_grid (current_grid : Grid) (HEIGHT WIDTH : Int) : Option Grid :=
  match make_grid HEIGHT WIDTH with
  | none => none
  | some next_grid =>
    (loopRange HEIGHT).foldlM
      (fun next y => (loopRange WIDTH).foldlM
        (fun next x => cell_body current_grid HEIGHT WIDTH next y x) next)
      next_grid

/-- The text `print_grid(grid)` writes to the standard output. -/
def print_grid (grid : Grid) : List Char :=
  grid.foldl
    (fun out row => (row.foldl (fun out cell => out ++ [if cell ≠ 0 then '#' else ' ']) out)
      ++ ['\n'])
    []

/-- The function `initialize_grid(HEIGHT, WIDTH)`. The library generator is a
parameter: `rand k` is the value returned by the `k`-th call of `rand()` after
`srand(seed)`. -/
def initialize_grid (rand : Nat → Int) (HEIGHT WIDTH : Int) : Option Grid :=
  match make_grid HEIGHT WIDTH with
  | none => none
  | some grid =>
    ((loopRange HEIGHT).foldlM
      (fun (st : Grid × Nat) y => (loopRange WIDTH).foldlM
        (fun (st : Grid × Nat) x =>
          (writeCell st.1 y x (Int.tmod (rand st.2) 2)).map (fun g => (g, st.2 + 1)))
        st)
      (grid, 0)).map Prod.fst

/-- The variables of the simulation loop of `main`: the current grid, the grids
buffered for playback, and the number of calls of `update_grid` made so far. -/
structure LoopState where
  current_grid : Grid
  buffered_grids : List Grid
  updates : Nat

/-- One iteration of the simulation loop of `main`. -/
def generation_body (HEIGHT WIDTH NUM_GENERATIONS display_step : Int) (s : LoopState)
    (generation : Int) : Option LoopState :=
  match update_grid s.current_grid HEIGHT WIDTH with
  | none => none
  | some next =>
    let buffered :=
      if display_step = 0 then s.buffered_grids
      else if Int.tmod (generation + 1) display_step = 0 ∨ generation = NUM_GENERATIONS - 1 then
        s.buffered_grids ++ [next]
      else s.buffered_grids
    some { current_grid := next, buffered_grids := buffered, updates := s.updates + 1 }

/-- The simulation loop of `main`,
`for (int generation = 0; generation < NUM_GENERATIONS; ++generation)`. -/
def generation_loop (HEIGHT WIDTH NUM_GENERATIONS display_step : Int) (start : Grid) :
    Option LoopState :=
  (loopRange NUM_GENERATIONS).foldlM
    (generation_body HEIGHT WIDTH NUM_GENERATIONS display_step)
    { current_grid := start, buffered_grids := [], updates := 0 }

/-- What a run of `main` does, as far as the model observes it: the exit status
(`none` when the run ends in an uncaught exception), whether the usage text was
printed, the number of calls of `update_grid`, and the grids played back. -/
structure MainResult where
  exit_status : Option Int
  usage_printed : Bool
  updates : Nat
  playback : List Grid
  deriving DecidableEq

/-- An error message followed by `print_usage` and `return 1`. -/
def usage_error : MainResult :=
  { exit_status := some 1, usage_printed := true, updates := 0, playback := [] }

/-- A run ended by an uncaught exception before the simulation loop. -/
def aborted : MainResult :=
  { exit_status := none, usage_printed := false, updates := 0, playback := [] }

/-- The function `main`. Here `args` is `argv[1], argv[2], ...`, so `argc` is
`args.length + 1`; the library functions `atoi` and `rand` and the value of
`omp_get_max_threads()` are parameters. -/
def main (atoi : String → Int) (omp_get_max_threads : Int) (rand : Nat → Nat → Int)
    (args : List String) : MainResult :=
  let argc : Int := (args.length : Int) + 1
  if argc > 7 then usage_error
  else
    let WIDTH : Int := if argc > 1 then atoi (args.getD 0 "") else 20
    let HEIGHT : Int := if argc > 2 then atoi (args.getD 1 "") else 20
    let NUM_GENERATIONS : Int := if argc > 3 then atoi (args.getD 2 "") else 100
    let display_step : Int := if argc > 4 then atoi (args.getD 3 "") else 50
    if argc > 5 ∧ (atoi (args.getD 4 "") ≤ 0 ∨ atoi (args.getD 4 "") > omp_get_max_threads)
    then usage_error
    else
      let seed : Nat :=
        if argc > 6 then (atoi (args.getD 5 "") % 4294967296).toNat else 1749994962
      if WIDTH ≤ 0 ∨ HEIGHT ≤ 0 then usage_error
      else if NUM_GENERATIONS < 0 then usage_error
      else
        match initialize_grid (rand seed) HEIGHT WIDTH with
        | none => aborted
        | some current_grid =>
          if display_step ≠ 0 ∧ wrap32 (Int.tdiv NUM_GENERATIONS display_step + 2) < 0
          then aborted
          else
            match generation_loop HEIGHT WIDTH NUM_GENERATIONS display_step current_grid with
            | none => aborted
            | some s =>
              { exit_status := some 0, usage_printed := false, updates := s.updates,
                playback := if display_step = 0 then [] else s.buffered_grids }

/-- The grid has exactly `HEIGHT` rows of exactly `WIDTH` cells. -/
def HasDims (g : Grid) (HEIGHT WIDTH : Int) : Prop :=
  (g.length : Int) = HEIGHT ∧ ∀ row ∈ g, (row.length : Int) = WIDTH

instance (g : Grid) (H W : Int) : Decidable (HasDims g H W) := by
  unfold HasDims; infer_instance

/-- Every cell of the grid is 0 or 1. -/
def IsBinary (g : Grid) : Prop := ∀ row ∈ g, ∀ c ∈ row, c = 0 ∨ c = 1

instance (g : Grid) : Decidable (IsBinary g) := by
  unfold IsBinary; infer_instance

/-! ## Definitions used by the statements and proofs -/

/-- The pairs `(a, b)` visited by a loop over `as` with a nested loop over `bs`. -/
def nestPairs (as bs : List Int) : List (Int × Int) :=
  as.flatMap (fun a => bs.map (fun b => (a, b)))

/-- The contribution of the position `(ny, nx)` to a neighbour count: the content of
the cell when the position is inside the grid, 0 otherwise. -/
def nbVal (g : Grid) (H W ny nx : Int) : Int :=
  if ny ≥ 0 ∧ ny < H ∧ nx ≥ 0 ∧ nx < W then (readCell g ny nx).getD 0 else 0

/-- The contribution of the offset `p = (dy, dx)` around `(y, x)`; the centre gives 0. -/
def nbTerm (g : Grid) (H W y x : Int) (p : Int × Int) : Int :=
  if p.1 = 0 ∧ p.2 = 0 then 0 else nbVal g H W (y + p.1) (x + p.2)

/-- The sum of the eight neighbour contributions around `(y, x)`. -/
def nbSum (g : Grid) (H W y x : Int) : Int :=
  nbVal g H W (y - 1) (x - 1) + nbVal g H W (y - 1) x + nbVal g H W (y - 1) (x + 1) +
  nbVal g H W y (x - 1) + nbVal g H W y (x + 1) +
  nbVal g H W (y + 1) (x - 1) + nbVal g H W (y + 1) x + nbVal g H W (y + 1) (x + 1)

/-- Running the loop body of `update_grid` for the cells of `order`, one after the
other, on the output grid `next_grid`; the input `current_grid` is frozen. -/
def process_cells (current_grid : Grid) (HEIGHT WIDTH : Int) (order : List (Int × Int))
    (next_grid : Grid) : Option Grid :=
  order.foldlM (fun next p => cell_body current_grid HEIGHT WIDTH next p.1 p.2) next_grid

/-- The cells of an `HEIGHT` by `WIDTH` grid in row-major order. -/
def rowMajor (HEIGHT WIDTH : Int) : List (Int × Int) :=
  nestPairs (loopRange HEIGHT) (loopRange WIDTH)

/-- The rule of `update_grid` on the content `c` of a cell with `n` live neighbours. -/
def next_state (c n : Int) : Int :=
  if c = 1 then (if n = 2 ∨ n = 3 then 1 else 0) else (if n = 3 then 1 else 0)

/-- The value `update_grid` stores for the cell `(y, x)` of the grid `g`. -/
def ruleAt (g : Grid) (H W y x : Int) : Int :=
  next_state ((readCell g y x).getD 0) ((count_live_neighbors g y x H W).getD 0)

/-- The neighbour count in the words of the specification: the number of offsets
`(dy, dx)` of `{-1,0,1} x {-1,0,1}` other than `(0, 0)` for which `(y+dy, x+dx)` lies
inside `[0,H) x [0,W)` and the cell there is 1. -/
def spec_neighbor_count (g : Grid) (y x H W : Int) : Int :=
  ((List.product [-1, 0, 1] [-1, 0, 1]).countP (fun p : Int × Int =>
    decide (p ≠ (0, 0) ∧ (0 ≤ y + p.1 ∧ y + p.1 < H) ∧ (0 ≤ x + p.2 ∧ x + p.2 < W) ∧
      readCell g (y + p.1) (x + p.2) = some 1)) : Nat)

/-- The grid of `H` rows by `W` columns whose live cells (content 1) are exactly the
positions `(y, x)` with `live y x`; every other cell is 0. -/
def grid_of (H W : Int) (live : Int → Int → Bool) : Grid :=
  (loopRange H).map (fun y => (loopRange W).map (fun x => if live y x then 1 else 0))

/-- The horizontal blinker: live cells `(r, c-1)`, `(r, c)`, `(r, c+1)`. -/
def blinker_row (H W r c : Int) : Grid :=
  grid_of H W (fun y x => decide (y = r ∧ (x = c - 1 ∨ x = c ∨ x = c + 1)))

/-- The vertical blinker: live cells `(r-1, c)`, `(r, c)`, `(r+1, c)`. -/
def blinker_col (H W r c : Int) : Grid :=
  grid_of H W (fun y x => decide (x = c ∧ (y = r - 1 ∨ y = r ∨ y = r + 1)))

/-- The block: live cells `(r, c)`, `(r, c+1)`, `(r+1, c)`, `(r+1, c+1)`. -/
def block (H W r c : Int) : Grid :=
  grid_of H W (fun y x => decide ((y = r ∨ y = r + 1) ∧ (x = c ∨ x = c + 1)))

/-- The character `print_grid` writes for a cell. -/
def cell_char (cell : Int) : Char := if cell ≠ 0 then '#' else ' '

/-- The rendering in the words of the specification: for the rows in order, one
character per cell in column order, then a newline. -/
def render_spec (g : Grid) : List Char :=
  (g.map (fun row => row.map cell_char ++ ['\n'])).flatten

/-- The value of the `i`-th argument (counting from 0 after the program name) when
it is given, and the default `d` otherwise. -/
def arg_or (atoi : String → Int) (args : List String) (i : Nat) (d : Int) : Int :=
  match args[i]? with
  | some a => atoi a
  | none => d

/-- The rejection condition in the words of the specification: more than 6
arguments, or a thread count that is given and is `≤ 0` or above the platform
maximum, or a resulting width `≤ 0`, or height `≤ 0`, or generation count `< 0`. -/
def spec_rejects (atoi : String → Int) (omp_get_max_threads : Int) (args : List String) :
    Prop :=
  args.length > 6 ∨
  (∃ t, args[4]? = some t ∧ (atoi t ≤ 0 ∨ atoi t > omp_get_max_threads)) ∨
  arg_or atoi args 0 20 ≤ 0 ∨ arg_or atoi args 1 20 ≤ 0 ∨ arg_or atoi args 2 100 < 0

/-- A stand-in for `atoi` on the argument strings used below. -/
def sample_atoi (s : String) : Int :=
  if s = "3" then 3 else if s = "1" then 1 else if s = "7" then 7 else 0

/-! ## Reading and writing cells -/

theorem readCell_some {g : Grid} {H W y x : Int} (hg : HasDims g H W)
    (hy0 : 0 ≤ y) (hy : y < H) (hx0 : 0 ≤ x) (hx : x < W) :
    ∃ c, readCell g y x = some c ∧ ∃ row ∈ g, c ∈ row := by
  obtain ⟨hlen, hrows⟩ := hg
  have hyn : y.toNat < g.length := by omega
  have hmem : g[y.toNat] ∈ g := List.getElem_mem hyn
  have hrl := hrows _ hmem
  have hxn : x.toNat < (g[y.toNat]).length := by omega
  refine ⟨(g[y.toNat])[x.toNat], ?_, g[y.toNat], hmem, List.getElem_mem hxn⟩
  simp [readCell, hy0, hx0, List.getElem?_eq_getElem hyn, List.getElem?_eq_getElem hxn]

theorem readCell_binary {g : Grid} {y x c : Int} (hb : IsBinary g)
    (h : readCell g y x = some c) : c = 0 ∨ c = 1 := by
  unfold readCell at h
  split_ifs at h with hc
  cases hrow : g[y.toNat]? with
  | none => simp [hrow] at h
  | some row =>
    simp only [hrow] at h
    exact hb row (List.getElem?_mem hrow) c (List.getElem?_mem h)

theorem writeCell_spec {g : Grid} {H W y x : Int} (v : Int) (hg : HasDims g H W)
    (hy0 : 0 ≤ y) (hy : y < H) (hx0 : 0 ≤ x) (hx : x < W) :
    ∃ g2, writeCell g y x v = some g2 ∧ HasDims g2 H W ∧
      ∀ y2 x2 : Int, readCell g2 y2 x2 =
        if y2 = y ∧ x2 = x then some v else readCell g y2 x2 := by
  obtain ⟨hlen, hrows⟩ := hg
  have hyn : y.toNat < g.length := by omega
  have hmem : g[y.toNat] ∈ g := List.getElem_mem hyn
  have hrl := hrows _ hmem
  have hxn : x.toNat < (g[y.toNat]).length := by omega
  refine ⟨g.set y.toNat ((g[y.toNat]).set x.toNat v), ?_, ⟨?_, ?_⟩, ?_⟩
  · simp [writeCell, hy0, hx0, List.getElem?_eq_getElem hyn, hxn]
  · simpa using hlen
  · intro row hrow
    rcases List.mem_or_eq_of_mem_set hrow with h | h
    · exact hrows row h
    · subst h; simpa using hrl
  · intro y2 x2
    unfold readCell
    by_cases hc : 0 ≤ y2 ∧ 0 ≤ x2
    · simp only [hc, and_self, if_true]
      by_cases hyy : y2 = y
      · subst hyy
        simp only [List.getElem?_set_self hyn, true_and, List.getElem?_eq_getElem hyn]
        by_cases hxx : x2 = x
        · subst hxx
          simp [List.getElem?_set_self hxn]
        · have : x.toNat ≠ x2.toNat := by omega
          simp [hxx, List.getElem?_set_ne this]
      · have : y.toNat ≠ y2.toNat := by omega
        simp [hyy, List.getElem?_set_ne this]
    · have : ¬ (y2 = y ∧ x2 = x) := by omega
      simp [hc, this]

/-- Two grids of the same dimensions with the same cells are equal. -/
theorem grid_ext {g1 g2 : Grid} {H W : Int} (h1 : HasDims g1 H W) (h2 : HasDims g2 H W)
    (h : ∀ y x : Int, 0 ≤ y → y < H → 0 ≤ x → x < W → readCell g1 y x = readCell g2 y x) :
    g1 = g2 := by
  apply List.ext_getElem (by have := h1.1; have := h2.1; omega)
  intro i hi1 hi2
  have hr1 := h1.2 _ (List.getElem_mem hi1)
  have hr2 := h2.2 _ (List.getElem_mem hi2)
  apply List.ext_getElem (by omega)
  intro j hj1 hj2
  have hl := h1.1
  have := h (i : Int) (j : Int) (by omega) (by omega) (by omega) (by omega)
  simpa [readCell, List.getElem?_eq_getElem hi1, List.getElem?_eq_getElem hi2,
    List.getElem?_eq_getElem hj1, List.getElem?_eq_getElem hj2] using this

/-! ## Loop nests as one loop over pairs -/

theorem foldlM_nest {γ : Type} (F : γ → Int → Int → Option γ) (as bs : List Int) (init : γ) :
    as.foldlM (fun s a => bs.foldlM (fun s b => F s a b) s) init =
      (nestPairs as bs).foldlM (fun s p => F s p.1 p.2) init := by
  induction as generalizing init with
  | nil => rfl
  | cons a as ih =>
    simp only [nestPairs, List.foldlM_cons, List.flatMap_cons, List.foldlM_append,
      List.foldlM_map]
    congr 1
    funext s
    exact ih s

theorem mem_nestPairs {as bs : List Int} {p : Int × Int} :
    p ∈ nestPairs as bs ↔ p.1 ∈ as ∧ p.2 ∈ bs := by
  obtain ⟨a, b⟩ := p
  simp only [nestPairs, List.mem_flatMap, List.mem_map, Prod.mk.injEq]
  constructor
  · rintro ⟨a2, ha, b2, hb, rfl, rfl⟩; exact ⟨ha, hb⟩
  · rintro ⟨ha, hb⟩; exact ⟨a, ha, b, hb, rfl, rfl⟩

theorem mem_loopRange {n i : Int} : i ∈ loopRange n ↔ 0 ≤ i ∧ i < n := by
  simp only [loopRange, List.mem_map, List.mem_range]
  constructor
  · rintro ⟨k, hk, rfl⟩
    have : ((k : Nat) : Int) = Int.ofNat k := rfl
    omega
  · rintro ⟨h0, h1⟩
    refine ⟨i.toNat, by omega, ?_⟩
    have : ((i.toNat : Nat) : Int) = Int.ofNat i.toNat := rfl
    omega

/-! ## Neighbour counting -/

theorem nbVal_binary {g : Grid} {H W : Int} (hb : IsBinary g) (ny nx : Int) :
    nbVal g H W ny nx = 0 ∨ nbVal g H W ny nx = 1 := by
  unfold nbVal
  split_ifs
  · cases h : readCell g ny nx with
    | none => simp
    | some c => simpa using readCell_binary hb h
  · exact Or.inl rfl

theorem nbTerm_binary {g : Grid} {H W : Int} (hb : IsBinary g) (y x : Int) (p : Int × Int) :
    nbTerm g H W y x p = 0 ∨ nbTerm g H W y x p = 1 := by
  unfold nbTerm
  split_ifs
  · exact Or.inl rfl
  · exact nbVal_binary hb _ _

theorem neighbor_body_some {g : Grid} {H W : Int} (hg : HasDims g H W) (y x dy dx live : Int) :
    neighbor_body g y x H W dy dx live =
      some (if dy = 0 ∧ dx = 0 then live
        else if y + dy ≥ 0 ∧ y + dy < H ∧ x + dx ≥ 0 ∧ x + dx < W then
          wrap32 (live + nbVal g H W (y + dy) (x + dx)) else live) := by
  unfold neighbor_body
  by_cases hc : dy = 0 ∧ dx = 0
  · simp only [hc, and_self, if_true]
  · simp only [hc, if_false]
    by_cases hin : y + dy ≥ 0 ∧ y + dy < H ∧ x + dx ≥ 0 ∧ x + dx < W
    · obtain ⟨c, hcell, -⟩ := readCell_some hg hin.1 hin.2.1 hin.2.2.1 hin.2.2.2
      simp only [hin, and_self, if_true, nbVal, hcell, Option.map_some', Option.getD_some]
    · simp only [hin, if_false]

theorem count_eq_fold (g : Grid) (y x H W : Int) :
    count_live_neighbors g y x H W =
      (nestPairs deltas deltas).foldlM (fun live p => neighbor_body g y x H W p.1 p.2 live) 0 := by
  unfold count_live_neighbors
  exact foldlM_nest (fun live dy dx => neighbor_body g y x H W dy dx live) deltas deltas 0

theorem fold_neighbors_some {g : Grid} {H W : Int} (hg : HasDims g H W) (y x : Int)
    (l : List (Int × Int)) (live : Int) :
    ∃ n, l.foldlM (fun live p => neighbor_body g y x H W p.1 p.2 live) live = some n := by
  induction l generalizing live with
  | nil => exact ⟨live, rfl⟩
  | cons p l ih =>
    rw [List.foldlM_cons, neighbor_body_some hg]
    simp only [Option.bind_eq_bind, Option.some_bind]
    exact ih _

theorem fold_neighbors_binary {g : Grid} {H W : Int} (hg : HasDims g H W) (hb : IsBinary g)
    (y x : Int) (l : List (Int × Int)) (live : Int) (h0 : 0 ≤ live)
    (h1 : live + l.length < 2147483648) :
    l.foldlM (fun live p => neighbor_body g y x H W p.1 p.2 live) live =
      some (live + (l.map (nbTerm g H W y x)).sum) := by
  induction l generalizing live with
  | nil => simp
  | cons p l ih =>
    rw [List.foldlM_cons, neighbor_body_some hg]
    simp only [Option.bind_eq_bind, Option.some_bind]
    simp only [List.length_cons, Nat.cast_add, Nat.cast_one] at h1
    have hv := nbVal_binary (H := H) (W := W) hb (y + p.1) (x + p.2)
    have hstep : (if p.1 = 0 ∧ p.2 = 0 then live
        else if y + p.1 ≥ 0 ∧ y + p.1 < H ∧ x + p.2 ≥ 0 ∧ x + p.2 < W then
          wrap32 (live + nbVal g H W (y + p.1) (x + p.2)) else live) =
        live + nbTerm g H W y x p := by
      unfold nbTerm
      by_cases hc : p.1 = 0 ∧ p.2 = 0
      · simp only [hc, and_self, if_true, add_zero]
      · simp only [hc, if_false]
        by_cases hin : y + p.1 ≥ 0 ∧ y + p.1 < H ∧ x + p.2 ≥ 0 ∧ x + p.2 < W
        · simp only [hin, and_self, if_true]
          unfold wrap32
          omega
        · simp only [hin, if_false]
          simp only [nbVal, hin, if_false, add_zero]
    rw [hstep]
    have ht := nbTerm_binary (H := H) (W := W) hb y x p
    rw [ih _ (by omega) (by omega)]
    simp only [List.map_cons, List.sum_cons, add_assoc]

theorem count_some {g : Grid} {H W : Int} (hg : HasDims g H W) (y x : Int) :
    ∃ n, count_live_neighbors g y x H W = some n := by
  rw [count_eq_fold]
  exact fold_neighbors_some hg y x _ 0

theorem count_binary {g : Grid} {H W : Int} (hg : HasDims g H W) (hb : IsBinary g)
    (y x : Int) :
    count_live_neighbors g y x H W = some (nbSum g H W y x) := by
  rw [count_eq_fold, fold_neighbors_binary hg hb y x _ 0 (le_refl 0) (by decide)]
  congr 1
  simp only [nestPairs, deltas, List.flatMap_cons, List.flatMap_nil, List.map_cons, List.map_nil,
    List.cons_append, List.nil_append, List.append_nil, List.sum_cons, List.sum_nil, nbTerm,
    nbSum]
  norm_num
  ring_nf

/-! ## The update step -/

theorem next_state_binary (c n : Int) : next_state c n = 0 ∨ next_state c n = 1 := by
  unfold next_state
  split_ifs <;> simp

theorem mem_rowMajor {H W : Int} {p : Int × Int} :
    p ∈ rowMajor H W ↔ (0 ≤ p.1 ∧ p.1 < H) ∧ (0 ≤ p.2 ∧ p.2 < W) := by
  simp only [rowMajor, mem_nestPairs, mem_loopRange]

theorem update_grid_eq_process (g : Grid) (H W : Int) :
    update_grid g H W =
      match make_grid H W with
      | none => none
      | some next_grid => process_cells g H W (rowMajor H W) next_grid := by
  unfold update_grid process_cells rowMajor
  cases make_grid H W with
  | none => rfl
  | some next_grid =>
    exact foldlM_nest (fun next y x => cell_body g H W next y x) _ _ next_grid

theorem cell_body_eq {g : Grid} {H W y x : Int} (hg : HasDims g H W)
    (hy0 : 0 ≤ y) (hy : y < H) (hx0 : 0 ≤ x) (hx : x < W) (next : Grid) :
    cell_body g H W next y x = writeCell next y x (ruleAt g H W y x) := by
  obtain ⟨n, hn⟩ := count_some hg y x
  obtain ⟨c, hc, -⟩ := readCell_some hg hy0 hy hx0 hx
  unfold cell_body ruleAt next_state
  simp only [hn, hc, Option.getD_some]
  split_ifs <;> rfl

theorem process_cells_spec {g : Grid} {H W : Int} (hg : HasDims g H W)
    (order : List (Int × Int))
    (hin : ∀ p ∈ order, (0 ≤ p.1 ∧ p.1 < H) ∧ (0 ≤ p.2 ∧ p.2 < W))
    (next : Grid) (hnext : HasDims next H W) :
    ∃ out, process_cells g H W order next = some out ∧ HasDims out H W ∧
      ∀ y x : Int, readCell out y x =
        if (y, x) ∈ order then some (ruleAt g H W y x) else readCell next y x := by
  induction order generalizing next with
  | nil => exact ⟨next, rfl, hnext, fun y x => by simp⟩
  | cons p order ih =>
    have hp := hin p (List.mem_cons_self _ _)
    obtain ⟨mid, hw, hmid, hread⟩ :=
      writeCell_spec (ruleAt g H W p.1 p.2) hnext hp.1.1 hp.1.2 hp.2.1 hp.2.2
    obtain ⟨out, hout, hdims, hcells⟩ :=
      ih (fun q hq => hin q (List.mem_cons_of_mem _ hq)) mid hmid
    refine ⟨out, ?_, hdims, ?_⟩
    · unfold process_cells at hout ⊢
      rw [List.foldlM_cons, cell_body_eq hg hp.1.1 hp.1.2 hp.2.1 hp.2.2, hw]
      exact hout
    · intro y x
      rw [hcells y x, hread y x]
      by_cases hmem : (y, x) ∈ order
      · simp [hmem]
      · by_cases hpe : (y, x) = p
        · subst hpe
          simp
        · have hne : ¬ (y = p.1 ∧ x = p.2) := by
            rintro ⟨rfl, rfl⟩; exact hpe rfl
          simp [hmem, hne, hpe]

theorem make_grid_spec {H W : Int} (hH : 0 ≤ H) (hW : 0 ≤ W) :
    ∃ z, make_grid H W = some z ∧ HasDims z H W := by
  refine ⟨List.replicate H.toNat (List.replicate W.toNat 0), ?_, ?_, ?_⟩
  · simp [make_grid, hH, hW]
  · simp only [List.length_replicate]; omega
  · intro row hrow
    rw [List.eq_of_mem_replicate hrow]
    simp only [List.length_replicate]; omega

/-- The result of `update_grid` on a grid of the stated dimensions: it exists, has
the same dimensions, and each cell holds the rule value computed from the input. -/
theorem update_grid_spec {g : Grid} {H W : Int} (hH : 0 ≤ H) (hW : 0 ≤ W)
    (hg : HasDims g H W) :
    ∃ out, update_grid g H W = some out ∧ HasDims out H W ∧
      ∀ y x : Int, 0 ≤ y → y < H → 0 ≤ x → x < W →
        readCell out y x = some (ruleAt g H W y x) := by
  obtain ⟨z, hz, hzd⟩ := make_grid_spec hH hW
  obtain ⟨out, hout, hd, hc⟩ :=
    process_cells_spec hg (rowMajor H W) (fun p hp => mem_rowMajor.1 hp) z hzd
  refine ⟨out, ?_, hd, ?_⟩
  · rw [update_grid_eq_process, hz]; exact hout
  · intro y x hy0 hy hx0 hx
    rw [hc y x, if_pos (mem_rowMajor.2 ⟨⟨hy0, hy⟩, ⟨hx0, hx⟩⟩)]

/-! ## Rule correctness, neighbour count, totality -/

theorem nbTerm_eq_indicator {g : Grid} {H W : Int} (hg : HasDims g H W) (hb : IsBinary g)
    (y x : Int) (p : Int × Int) :
    nbTerm g H W y x p =
      if (p ≠ (0, 0) ∧ (0 ≤ y + p.1 ∧ y + p.1 < H) ∧ (0 ≤ x + p.2 ∧ x + p.2 < W) ∧
        readCell g (y + p.1) (x + p.2) = some 1) then 1 else 0 := by
  obtain ⟨dy, dx⟩ := p
  unfold nbTerm nbVal
  by_cases hc : dy = 0 ∧ dx = 0
  · have : ¬ ((dy, dx) ≠ ((0 : Int), (0 : Int))) := by simp [hc.1, hc.2]
    simp [hc, this]
  · have hne : (dy, dx) ≠ ((0 : Int), (0 : Int)) := by
      intro h; simp only [Prod.mk.injEq] at h; exact hc h
    by_cases hin : y + dy ≥ 0 ∧ y + dy < H ∧ x + dx ≥ 0 ∧ x + dx < W
    · obtain ⟨c, hcell, -⟩ := readCell_some hg hin.1 hin.2.1 hin.2.2.1 hin.2.2.2
      have hc01 := readCell_binary hb hcell
      have h1 : (0 ≤ y + dy ∧ y + dy < H) ∧ (0 ≤ x + dx ∧ x + dx < W) :=
        ⟨⟨hin.1, hin.2.1⟩, ⟨hin.2.2.1, hin.2.2.2⟩⟩
      simp only [hc, if_false, hin, and_self, if_true, hcell, Option.getD_some, hne, h1,
        ne_eq, not_false_eq_true, true_and, Option.some.injEq]
      rcases hc01 with h | h <;> simp [h]
    · rw [if_neg hc, if_neg hin, if_neg]
      rintro ⟨-, ha, hb2, -⟩
      exact hin ⟨ha.1, ha.2, hb2.1, hb2.2⟩

theorem sum_indicator_eq_countP (f : Int × Int → Int) (q : Int × Int → Prop)
    [DecidablePred q] (hf : ∀ p, f p = if q p then 1 else 0) (l : List (Int × Int)) :
    (l.map f).sum = ((l.countP (fun p => decide (q p)) : Nat) : Int) := by
  induction l with
  | nil => simp
  | cons p l ih =>
    rw [List.map_cons, List.sum_cons, ih, List.countP_cons, hf p]
    by_cases h : q p
    · simp only [h, decide_True, if_true, Nat.cast_add, Nat.cast_one]; omega
    · simp [h]

/-- C1: on a binary grid of `H` rows by `W` columns, the cell `(y, x)` of
`update_grid(g, H, W)` is 1 exactly when the cell was 1 and has 2 or 3 live
neighbours, or was 0 and has exactly 3; in every other case it is 0. -/
theorem update_grid_rule (H W : Int) (g : Grid) (y x : Int) (hH : 0 ≤ H) (hW : 0 ≤ W)
    (hg : HasDims g H W) (hb : IsBinary g)
    (hy0 : 0 ≤ y) (hy : y < H) (hx0 : 0 ≤ x) (hx : x < W) :
    ∃ out c n, update_grid g H W = some out ∧ readCell g y x = some c ∧
      count_live_neighbors g y x H W = some n ∧
      readCell out y x =
        some (if (c = 1 ∧ (n = 2 ∨ n = 3)) ∨ (c = 0 ∧ n = 3) then 1 else 0) := by
  obtain ⟨out, hout, -, hcells⟩ := update_grid_spec hH hW hg
  obtain ⟨c, hc, -⟩ := readCell_some hg hy0 hy hx0 hx
  have hc01 := readCell_binary hb hc
  refine ⟨out, c, nbSum g H W y x, hout, hc, count_binary hg hb y x, ?_⟩
  rw [hcells y x hy0 hy hx0 hx]
  unfold ruleAt next_state
  rw [hc, count_binary hg hb y x]
  simp only [Option.getD_some]
  congr 1
  rcases hc01 with h | h <;> subst h <;> simp

theorem update_grid_rule_witness :
    ∃ out c n, update_grid [[0, 0, 0], [1, 1, 1], [0, 0, 0]] 3 3 = some out ∧
      readCell [[0, 0, 0], [1, 1, 1], [0, 0, 0]] 0 1 = some c ∧
      count_live_neighbors [[0, 0, 0], [1, 1, 1], [0, 0, 0]] 0 1 3 3 = some n ∧
      readCell out 0 1 =
        some (if (c = 1 ∧ (n = 2 ∨ n = 3)) ∨ (c = 0 ∧ n = 3) then 1 else 0) :=
  update_grid_rule 3 3 [[0, 0, 0], [1, 1, 1], [0, 0, 0]] 0 1 (by decide) (by decide)
    (by decide) (by decide) (by decide) (by decide) (by decide) (by decide)

/-- C2: on a binary grid of `H` rows by `W` columns and for every cell `(y, x)`, the
in-bounds ones in particular, `count_live_neighbors` returns the number of offsets other than `(0, 0)` whose
position lies inside the grid and holds 1 (positions outside contribute nothing),
and the result is between 0 and 8. -/
theorem count_live_neighbors_spec (H W : Int) (g : Grid) (y x : Int)
    (hg : HasDims g H W) (hb : IsBinary g) :
    count_live_neighbors g y x H W = some (spec_neighbor_count g y x H W) ∧
      0 ≤ spec_neighbor_count g y x H W ∧ spec_neighbor_count g y x H W ≤ 8 := by
  have hprod : List.product [-1, 0, 1] [-1, 0, 1] = nestPairs deltas deltas := by decide
  have hcount : count_live_neighbors g y x H W = some (spec_neighbor_count g y x H W) := by
    rw [count_eq_fold, fold_neighbors_binary hg hb y x _ 0 (le_refl 0) (by decide)]
    rw [sum_indicator_eq_countP _ _ (nbTerm_eq_indicator hg hb y x)]
    simp only [zero_add, spec_neighbor_count, hprod]
  refine ⟨hcount, ?_, ?_⟩
  · unfold spec_neighbor_count; omega
  · have h1 := count_binary hg hb y x
    rw [hcount] at h1
    have h2 : spec_neighbor_count g y x H W = nbSum g H W y x := Option.some.inj h1
    rw [h2]
    unfold nbSum
    have a1 := nbVal_binary (H := H) (W := W) hb (y - 1) (x - 1)
    have a2 := nbVal_binary (H := H) (W := W) hb (y - 1) x
    have a3 := nbVal_binary (H := H) (W := W) hb (y - 1) (x + 1)
    have a4 := nbVal_binary (H := H) (W := W) hb y (x - 1)
    have a5 := nbVal_binary (H := H) (W := W) hb y (x + 1)
    have a6 := nbVal_binary (H := H) (W := W) hb (y + 1) (x - 1)
    have a7 := nbVal_binary (H := H) (W := W) hb (y + 1) x
    have a8 := nbVal_binary (H := H) (W := W) hb (y + 1) (x + 1)
    omega

theorem count_live_neighbors_spec_witness :
    count_live_neighbors [[1, 1], [0, 1]] 0 0 2 2 =
        some (spec_neighbor_count [[1, 1], [0, 1]] 0 0 2 2) ∧
      0 ≤ spec_neighbor_count [[1, 1], [0, 1]] 0 0 2 2 ∧
      spec_neighbor_count [[1, 1], [0, 1]] 0 0 2 2 ≤ 8 :=
  count_live_neighbors_spec 2 2 [[1, 1], [0, 1]] 0 0 (by decide) (by decide)

/-- C3: for `H, W ≥ 0` and a grid of exactly `H` rows of `W` cells (binary or not),
`update_grid` returns a grid, no index access being out of bounds, and the result has
exactly `H` rows of exactly `W` cells; with `W = 0` every row of the result is empty and
with `H = 0` the result has no row. -/
theorem update_grid_total (H W : Int) (g : Grid) (hH : 0 ≤ H) (hW : 0 ≤ W)
    (hg : HasDims g H W) :
    ∃ out, update_grid g H W = some out ∧ HasDims out H W ∧
      (W = 0 → ∀ row ∈ out, row = []) ∧ (H = 0 → out = []) ∧
      ((H = 0 ∨ W = 0) → out.flatten = []) := by
  obtain ⟨out, hout, hd, -⟩ := update_grid_spec hH hW hg
  have hrows : W = 0 → ∀ row ∈ out, row = [] := by
    intro hW0 row hrow
    have := hd.2 row hrow
    exact List.length_eq_zero.1 (by omega)
  have hnil : H = 0 → out = [] := by
    intro hH0
    have := hd.1
    exact List.length_eq_zero.1 (by omega)
  refine ⟨out, hout, hd, hrows, hnil, ?_⟩
  rintro (h | h)
  · rw [hnil h]; rfl
  · rw [List.flatten_eq_nil_iff]; exact hrows h

theorem update_grid_total_witness :
    ∃ out, update_grid [[], []] 2 0 = some out ∧ HasDims out 2 0 ∧
      ((0 : Int) = 0 → ∀ row ∈ out, row = []) ∧ ((2 : Int) = 0 → out = []) ∧
      (((2 : Int) = 0 ∨ (0 : Int) = 0) → out.flatten = []) :=
  update_grid_total 2 0 [[], []] (by decide) (by decide) (by decide)

/-! ## Boundaries do not wrap -/

theorem foldlM_congr_mem {α γ : Type} (f1 f2 : γ → α → Option γ) (l : List α)
    (h : ∀ a ∈ l, ∀ s, f1 s a = f2 s a) (init : γ) :
    l.foldlM f1 init = l.foldlM f2 init := by
  induction l generalizing init with
  | nil => rfl
  | cons a l ih =>
    rw [List.foldlM_cons, List.foldlM_cons, h a (List.mem_cons_self _ _) init]
    congr 1
    funext s
    exact ih (fun b hb s => h b (List.mem_cons_of_mem _ hb) s) s

theorem mem_deltas {d : Int} : d ∈ deltas ↔ d = -1 ∨ d = 0 ∨ d = 1 := by
  simp [deltas]

/-- The neighbour count of `(y, x)` is the same on two grids that agree on every
in-bounds position at distance at most 1 from `(y, x)` other than `(y, x)`. -/
theorem count_congr {g g2 : Grid} {H W y x : Int}
    (h : ∀ dy dx : Int, (dy = -1 ∨ dy = 0 ∨ dy = 1) → (dx = -1 ∨ dx = 0 ∨ dx = 1) →
      ¬ (dy = 0 ∧ dx = 0) → y + dy ≥ 0 ∧ y + dy < H ∧ x + dx ≥ 0 ∧ x + dx < W →
      readCell g2 (y + dy) (x + dx) = readCell g (y + dy) (x + dx)) :
    count_live_neighbors g2 y x H W = count_live_neighbors g y x H W := by
  rw [count_eq_fold, count_eq_fold]
  apply foldlM_congr_mem
  intro p hp live
  rw [mem_nestPairs, mem_deltas, mem_deltas] at hp
  unfold neighbor_body
  by_cases hc : p.1 = 0 ∧ p.2 = 0
  · simp only [hc, and_self, if_true]
  · simp only [hc, if_false]
    by_cases hin : y + p.1 ≥ 0 ∧ y + p.1 < H ∧ x + p.2 ≥ 0 ∧ x + p.2 < W
    · simp only [hin, and_self, if_true, h p.1 p.2 hp.1 hp.2 hc hin]
    · simp only [hin, if_false]

/-- C4, as stated, fails on a 2 by 2 grid: there `(H-1, W-1) = (1, 1)` is the diagonal
neighbour of `(0, 0)`, and setting it to 1 changes the count of `(0, 0)` from 0 to 1. -/
theorem no_wrap_counterexample :
    (2 : Int) ≤ 2 ∧ HasDims [[0, 0], [0, 0]] 2 2 ∧
      writeCell [[0, 0], [0, 0]] (2 - 1) (2 - 1) 1 = some [[0, 0], [0, 1]] ∧
      count_live_neighbors [[0, 0], [0, 0]] 0 0 2 2 = some 0 ∧
      count_live_neighbors [[0, 0], [0, 1]] 0 0 2 2 = some 1 := by
  decide

/-- C4, amended: for `H, W ≥ 2` with `H ≥ 3` or `W ≥ 3` and a grid of `H` rows by `W`
columns, the count of `(0, 0)` is unchanged when only the cell `(H-1, W-1)` is changed,
and the count of `(H-1, W-1)` is unchanged when only the cell `(0, 0)` is changed. -/
theorem no_wrap_far_corner (H W : Int) (g : Grid) (v : Int) (hH : 2 ≤ H) (hW : 2 ≤ W)
    (hbig : 3 ≤ H ∨ 3 ≤ W) (hg : HasDims g H W) :
    (∃ g2, writeCell g (H - 1) (W - 1) v = some g2 ∧
      count_live_neighbors g2 0 0 H W = count_live_neighbors g 0 0 H W) ∧
    (∃ g3, writeCell g 0 0 v = some g3 ∧
      count_live_neighbors g3 (H - 1) (W - 1) H W =
        count_live_neighbors g (H - 1) (W - 1) H W) := by
  constructor
  · obtain ⟨g2, hw, -, hread⟩ :=
      writeCell_spec v hg (show 0 ≤ H - 1 by omega) (by omega) (show 0 ≤ W - 1 by omega)
        (by omega)
    refine ⟨g2, hw, count_congr ?_⟩
    intro dy dx hdy hdx _ hin
    rw [hread, if_neg]
    omega
  · obtain ⟨g3, hw, -, hread⟩ :=
      writeCell_spec v hg (le_refl 0) (show (0 : Int) < H by omega) (le_refl 0)
        (show (0 : Int) < W by omega)
    refine ⟨g3, hw, count_congr ?_⟩
    intro dy dx hdy hdx _ hin
    rw [hread, if_neg]
    omega

theorem no_wrap_far_corner_witness :
    (∃ g2, writeCell [[0, 0, 0], [0, 0, 0]] (2 - 1) (3 - 1) 1 = some g2 ∧
      count_live_neighbors g2 0 0 2 3 = count_live_neighbors [[0, 0, 0], [0, 0, 0]] 0 0 2 3) ∧
    (∃ g3, writeCell [[0, 0, 0], [0, 0, 0]] 0 0 1 = some g3 ∧
      count_live_neighbors g3 (2 - 1) (3 - 1) 2 3 =
        count_live_neighbors [[0, 0, 0], [0, 0, 0]] (2 - 1) (3 - 1) 2 3) :=
  no_wrap_far_corner 2 3 [[0, 0, 0], [0, 0, 0]] 1 (by decide) (by decide) (by decide)
    (by decide)

/-! ## Order independence -/

theorem process_cells_flatten (g : Grid) (H W : Int) (groups : List (List (Int × Int)))
    (next : Grid) :
    groups.foldlM (fun next grp => process_cells g H W grp next) next =
      process_cells g H W groups.flatten next := by
  induction groups generalizing next with
  | nil => rfl
  | cons grp groups ih =>
    unfold process_cells at ih ⊢
    rw [List.foldlM_cons, List.flatten_cons, List.foldlM_append]
    congr 1
    funext s
    exact ih s

theorem process_perm_eq_update {g : Grid} {H W : Int} (hH : 0 ≤ H) (hW : 0 ≤ W)
    (hg : HasDims g H W) {out : Grid} (hout : update_grid g H W = some out)
    (order : List (Int × Int)) (hperm : order.Perm (rowMajor H W)) :
    (make_grid H W).bind (process_cells g H W order) = some out := by
  obtain ⟨out1, hout1, hd1, hc1⟩ := update_grid_spec hH hW hg
  rw [hout] at hout1
  obtain rfl := Option.some.inj hout1
  obtain ⟨z, hz, hzd⟩ := make_grid_spec hH hW
  obtain ⟨out2, hout2, hd2, hc2⟩ :=
    process_cells_spec hg order (fun p hp => mem_rowMajor.1 (hperm.mem_iff.1 hp)) z hzd
  rw [hz, Option.some_bind, hout2]
  congr 1
  apply grid_ext hd2 hd1
  intro y x hy0 hy hx0 hx
  rw [hc1 y x hy0 hy hx0 hx, hc2 y x,
    if_pos (hperm.mem_iff.2 (mem_rowMajor.2 ⟨⟨hy0, hy⟩, ⟨hx0, hx⟩⟩))]

/-- C5: for a grid of `H` rows by `W` columns, running the loop body of `update_grid`
over the cells in any order that is a permutation of the row-major order, or group by
group over any partition of the cells into groups, each cell writing its own output
cell from the frozen input, gives the grid `update_grid` returns. -/
theorem update_grid_order_independent (H W : Int) (g : Grid) (hH : 0 ≤ H) (hW : 0 ≤ W)
    (hg : HasDims g H W) :
    ∃ out, update_grid g H W = some out ∧
      (∀ order : List (Int × Int), order.Perm (rowMajor H W) →
        (make_grid H W).bind (process_cells g H W order) = some out) ∧
      (∀ groups : List (List (Int × Int)), groups.flatten.Perm (rowMajor H W) →
        (make_grid H W).bind
          (fun next => groups.foldlM (fun next grp => process_cells g H W grp next) next) =
          some out) := by
  obtain ⟨out, hout, -, -⟩ := update_grid_spec hH hW hg
  refine ⟨out, hout, fun order hperm => process_perm_eq_update hH hW hg hout order hperm, ?_⟩
  intro groups hperm
  have := process_perm_eq_update hH hW hg hout groups.flatten hperm
  rw [← this]
  congr 1
  funext next
  exact process_cells_flatten g H W groups next

theorem update_grid_order_independent_witness :
    ∃ out, update_grid [[0, 1], [1, 1]] 2 2 = some out ∧
      (∀ order : List (Int × Int), order.Perm (rowMajor 2 2) →
        (make_grid 2 2).bind (process_cells [[0, 1], [1, 1]] 2 2 order) = some out) ∧
      (∀ groups : List (List (Int × Int)), groups.flatten.Perm (rowMajor 2 2) →
        (make_grid 2 2).bind
          (fun next => groups.foldlM
            (fun next grp => process_cells [[0, 1], [1, 1]] 2 2 grp next) next) =
          some out) :=
  update_grid_order_independent 2 2 [[0, 1], [1, 1]] (by decide) (by decide) (by decide)

/-! ## Binary closure -/

theorem isBinary_of_cells {g : Grid} {H W : Int} (hg : HasDims g H W)
    (h : ∀ y x : Int, 0 ≤ y → y < H → 0 ≤ x → x < W →
      ∃ c, readCell g y x = some c ∧ (c = 0 ∨ c = 1)) : IsBinary g := by
  intro row hrow c hc
  obtain ⟨i, hi, rfl⟩ := List.getElem_of_mem hrow
  obtain ⟨j, hj, rfl⟩ := List.getElem_of_mem hc
  have hl := hg.1
  have hr := hg.2 _ (List.getElem_mem hi)
  obtain ⟨c, hcell, hc01⟩ := h (i : Int) (j : Int) (by omega) (by omega) (by omega) (by omega)
  have : (g[i])[j] = c := by
    simpa [readCell, List.getElem?_eq_getElem hi, List.getElem?_eq_getElem hj] using hcell
  rw [this]; exact hc01

theorem update_grid_binary {g : Grid} {H W : Int} (hH : 0 ≤ H) (hW : 0 ≤ W)
    (hg : HasDims g H W) :
    ∃ out, update_grid g H W = some out ∧ HasDims out H W ∧ IsBinary out := by
  obtain ⟨out, hout, hd, hc⟩ := update_grid_spec hH hW hg
  refine ⟨out, hout, hd, isBinary_of_cells hd ?_⟩
  intro y x hy0 hy hx0 hx
  exact ⟨_, hc y x hy0 hy hx0 hx, next_state_binary _ _⟩

theorem generation_fold_binary {H W : Int} (hH : 0 ≤ H) (hW : 0 ≤ W) (N ds : Int)
    (gens : List Int) (s : LoopState) (hs : HasDims s.current_grid H W)
    (hb : gens ≠ [] ∨ IsBinary s.current_grid) :
    ∃ t, gens.foldlM (generation_body H W N ds) s = some t ∧
      HasDims t.current_grid H W ∧ IsBinary t.current_grid ∧
      t.updates = s.updates + gens.length := by
  induction gens generalizing s with
  | nil =>
    rcases hb with h | h
    · exact absurd rfl h
    · exact ⟨s, rfl, hs, h, rfl⟩
  | cons k gens ih =>
    obtain ⟨out, hout, hd, hbin⟩ := update_grid_binary hH hW hs
    have hstep : ∃ s2, generation_body H W N ds s k = some s2 ∧ s2.current_grid = out ∧
        s2.updates = s.updates + 1 := by
      unfold generation_body
      simp only [hout]
      exact ⟨_, rfl, rfl, rfl⟩
    obtain ⟨s2, hs2, hcur, hupd⟩ := hstep
    rw [List.foldlM_cons, hs2]
    simp only [Option.bind_eq_bind, Option.some_bind]
    obtain ⟨t, ht, htd, htb, htu⟩ := ih s2 (hcur ▸ hd) (Or.inr (hcur ▸ hbin))
    refine ⟨t, ht, htd, htb, ?_⟩
    rw [htu, hupd]
    simp only [List.length_cons]
    omega

/-- C10: for a grid of `H` rows by `W` columns of arbitrary integer cells,
`update_grid` returns a grid of the same dimensions whose cells are all 0 or 1; so
the current grid of the driver loop after one or more generations is a binary grid
of `H` rows by `W` columns. -/
theorem binary_closure (H W : Int) (g : Grid) (hH : 0 ≤ H) (hW : 0 ≤ W)
    (hg : HasDims g H W) :
    (∃ out, update_grid g H W = some out ∧ HasDims out H W ∧ IsBinary out) ∧
      ∀ N ds : Int, 1 ≤ N →
        ∃ s, generation_loop H W N ds g = some s ∧
          HasDims s.current_grid H W ∧ IsBinary s.current_grid := by
  refine ⟨update_grid_binary hH hW hg, ?_⟩
  intro N ds hN
  have hne : loopRange N ≠ [] := by
    intro h
    have : (0 : Int) ∈ loopRange N := mem_loopRange.2 ⟨le_refl 0, by omega⟩
    rw [h] at this
    exact absurd this (List.not_mem_nil _)
  obtain ⟨t, ht, htd, htb, -⟩ :=
    generation_fold_binary hH hW N ds (loopRange N)
      { current_grid := g, buffered_grids := [], updates := 0 } hg (Or.inl hne)
  exact ⟨t, ht, htd, htb⟩

theorem binary_closure_witness :
    (∃ out, update_grid [[5, -2], [7, 1]] 2 2 = some out ∧ HasDims out 2 2 ∧ IsBinary out) ∧
      ∀ N ds : Int, 1 ≤ N →
        ∃ s, generation_loop 2 2 N ds [[5, -2], [7, 1]] = some s ∧
          HasDims s.current_grid 2 2 ∧ IsBinary s.current_grid :=
  binary_closure 2 2 [[5, -2], [7, 1]] (by decide) (by decide) (by decide)

/-! ## The blinker and the block -/

theorem length_loopRange {n : Int} (hn : 0 ≤ n) : ((loopRange n).length : Int) = n := by
  simp only [loopRange, List.length_map, List.length_range]; omega

theorem getElem?_loopRange {n i : Int} (hi0 : 0 ≤ i) (hi : i < n) :
    (loopRange n)[i.toNat]? = some i := by
  have h : i.toNat < n.toNat := by omega
  simp only [loopRange, List.getElem?_map, List.getElem?_range h, Option.map_some',
    Option.some.injEq]
  exact Int.toNat_of_nonneg hi0

theorem grid_of_dims {H W : Int} (hH : 0 ≤ H) (hW : 0 ≤ W) (live : Int → Int → Bool) :
    HasDims (grid_of H W live) H W := by
  constructor
  · simp only [grid_of, List.length_map]; exact length_loopRange hH
  · intro row hrow
    simp only [grid_of, List.mem_map] at hrow
    obtain ⟨y, -, rfl⟩ := hrow
    simp only [List.length_map]; exact length_loopRange hW

theorem readCell_grid_of {H W y x : Int} (live : Int → Int → Bool)
    (hy0 : 0 ≤ y) (hy : y < H) (hx0 : 0 ≤ x) (hx : x < W) :
    readCell (grid_of H W live) y x = some (if live y x then 1 else 0) := by
  simp only [readCell, hy0, hx0, and_self, if_true, grid_of, List.getElem?_map,
    getElem?_loopRange hy0 hy, Option.map_some', getElem?_loopRange hx0 hx]

theorem grid_of_binary {H W : Int} (hH : 0 ≤ H) (hW : 0 ≤ W) (live : Int → Int → Bool) :
    IsBinary (grid_of H W live) := by
  apply isBinary_of_cells (grid_of_dims hH hW live)
  intro y x hy0 hy hx0 hx
  refine ⟨_, readCell_grid_of live hy0 hy hx0 hx, ?_⟩
  by_cases h : live y x <;> simp [h]

theorem nbVal_grid_of {H W : Int} (live : Int → Int → Bool) (ny nx : Int) :
    nbVal (grid_of H W live) H W ny nx =
      if (ny ≥ 0 ∧ ny < H ∧ nx ≥ 0 ∧ nx < W) ∧ live ny nx = true then 1 else 0 := by
  unfold nbVal
  by_cases hin : ny ≥ 0 ∧ ny < H ∧ nx ≥ 0 ∧ nx < W
  · rw [if_pos hin, readCell_grid_of live hin.1 hin.2.1 hin.2.2.1 hin.2.2.2]
    by_cases h : live ny nx <;> simp [h, hin]
  · rw [if_neg hin, if_neg (fun h => hin h.1)]

/-- The update of a pattern grid is a pattern grid, when the rule maps the one
pattern to the other at every in-bounds cell. -/
theorem update_grid_of {H W : Int} (hH : 0 ≤ H) (hW : 0 ≤ W) (P Q : Int → Int → Bool)
    (h : ∀ y x : Int, 0 ≤ y → y < H → 0 ≤ x → x < W →
      next_state (if P y x then 1 else 0) (nbSum (grid_of H W P) H W y x) =
        if Q y x then 1 else 0) :
    update_grid (grid_of H W P) H W = some (grid_of H W Q) := by
  obtain ⟨out, hout, hd, hc⟩ := update_grid_spec hH hW (grid_of_dims hH hW P)
  rw [hout]
  congr 1
  apply grid_ext hd (grid_of_dims hH hW Q)
  intro y x hy0 hy hx0 hx
  rw [hc y x hy0 hy hx0 hx, readCell_grid_of Q hy0 hy hx0 hx]
  congr 1
  unfold ruleAt
  rw [readCell_grid_of P hy0 hy hx0 hx,
    count_binary (grid_of_dims hH hW P) (grid_of_binary hH hW P) y x]
  exact h y x hy0 hy hx0 hx

/-- C6: with `1 ≤ r ≤ H-2` and `1 ≤ c ≤ W-2`, `update_grid` maps the horizontal
blinker centred at `(r, c)` to the vertical blinker centred at `(r, c)`, and the
vertical one back to the horizontal one. -/
theorem blinker_oscillates (H W r c : Int) (hr1 : 1 ≤ r) (hr2 : r ≤ H - 2)
    (hc1 : 1 ≤ c) (hc2 : c ≤ W - 2) :
    update_grid (blinker_row H W r c) H W = some (blinker_col H W r c) ∧
      update_grid (blinker_col H W r c) H W = some (blinker_row H W r c) := by
  constructor
  · apply update_grid_of (by omega) (by omega)
    intro y x hy0 hy hx0 hx
    simp only [nbSum, nbVal_grid_of, next_state, decide_eq_true_eq]
    have hy5 : y < r - 1 ∨ y = r - 1 ∨ y = r ∨ y = r + 1 ∨ r + 1 < y := by omega
    have hx5 : x < c - 1 ∨ x = c - 1 ∨ x = c ∨ x = c + 1 ∨ c + 1 < x := by omega
    rcases hy5 with h1 | h1 | h1 | h1 | h1 <;> rcases hx5 with h2 | h2 | h2 | h2 | h2 <;>
      simp (disch := omega) only [if_pos, if_neg, if_true, if_false]
  · apply update_grid_of (by omega) (by omega)
    intro y x hy0 hy hx0 hx
    simp only [nbSum, nbVal_grid_of, next_state, decide_eq_true_eq]
    have hy5 : y < r - 1 ∨ y = r - 1 ∨ y = r ∨ y = r + 1 ∨ r + 1 < y := by omega
    have hx5 : x < c - 1 ∨ x = c - 1 ∨ x = c ∨ x = c + 1 ∨ c + 1 < x := by omega
    rcases hy5 with h1 | h1 | h1 | h1 | h1 <;> rcases hx5 with h2 | h2 | h2 | h2 | h2 <;>
      simp (disch := omega) only [if_pos, if_neg, if_true, if_false]

theorem blinker_oscillates_witness :
    update_grid (blinker_row 3 3 1 1) 3 3 = some (blinker_col 3 3 1 1) ∧
      update_grid (blinker_col 3 3 1 1) 3 3 = some (blinker_row 3 3 1 1) :=
  blinker_oscillates 3 3 1 1 (by decide) (by decide) (by decide) (by decide)

theorem block_count {H W r c : Int} (hr1 : 1 ≤ r) (hr2 : r + 1 ≤ H - 2)
    (hc1 : 1 ≤ c) (hc2 : c + 1 ≤ W - 2) (y x : Int)
    (hy : y = r ∨ y = r + 1) (hx : x = c ∨ x = c + 1) :
    count_live_neighbors (block H W r c) y x H W = some 3 := by
  unfold block
  rw [count_binary (grid_of_dims (by omega) (by omega) _) (grid_of_binary (by omega) (by omega) _)]
  congr 1
  simp only [nbSum, nbVal_grid_of, decide_eq_true_eq]
  rcases hy with h1 | h1 <;> rcases hx with h2 | h2 <;>
    simp (disch := omega) only [if_pos, if_neg] <;> rfl

/-- C7: with `1 ≤ r`, `r+1 ≤ H-2`, `1 ≤ c`, `c+1 ≤ W-2`, every cell of the 2 by 2 block
at `(r, c)` has exactly 3 live neighbours and `update_grid` leaves the block grid
unchanged. -/
theorem block_still_life (H W r c : Int) (hr1 : 1 ≤ r) (hr2 : r + 1 ≤ H - 2)
    (hc1 : 1 ≤ c) (hc2 : c + 1 ≤ W - 2) :
    count_live_neighbors (block H W r c) r c H W = some 3 ∧
      count_live_neighbors (block H W r c) r (c + 1) H W = some 3 ∧
      count_live_neighbors (block H W r c) (r + 1) c H W = some 3 ∧
      count_live_neighbors (block H W r c) (r + 1) (c + 1) H W = some 3 ∧
      update_grid (block H W r c) H W = some (block H W r c) := by
  refine ⟨block_count hr1 hr2 hc1 hc2 _ _ (Or.inl rfl) (Or.inl rfl),
    block_count hr1 hr2 hc1 hc2 _ _ (Or.inl rfl) (Or.inr rfl),
    block_count hr1 hr2 hc1 hc2 _ _ (Or.inr rfl) (Or.inl rfl),
    block_count hr1 hr2 hc1 hc2 _ _ (Or.inr rfl) (Or.inr rfl), ?_⟩
  apply update_grid_of (by omega) (by omega)
  intro y x hy0 hy hx0 hx
  simp only [nbSum, nbVal_grid_of, next_state, decide_eq_true_eq]
  have hy5 : y < r - 1 ∨ y = r - 1 ∨ y = r ∨ y = r + 1 ∨ y = r + 2 ∨ r + 2 < y := by omega
  have hx5 : x < c - 1 ∨ x = c - 1 ∨ x = c ∨ x = c + 1 ∨ x = c + 2 ∨ c + 2 < x := by omega
  rcases hy5 with h1 | h1 | h1 | h1 | h1 | h1 <;>
    rcases hx5 with h2 | h2 | h2 | h2 | h2 | h2 <;>
      simp (disch := omega) only [if_pos, if_neg, if_true, if_false]

theorem block_still_life_witness :
    count_live_neighbors (block 4 4 1 1) 1 1 4 4 = some 3 ∧
      count_live_neighbors (block 4 4 1 1) 1 (1 + 1) 4 4 = some 3 ∧
      count_live_neighbors (block 4 4 1 1) (1 + 1) 1 4 4 = some 3 ∧
      count_live_neighbors (block 4 4 1 1) (1 + 1) (1 + 1) 4 4 = some 3 ∧
      update_grid (block 4 4 1 1) 4 4 = some (block 4 4 1 1) :=
  block_still_life 4 4 1 1 (by decide) (by decide) (by decide) (by decide)

/-! ## Rendering -/

theorem row_fold_eq (row : List Int) (out : List Char) :
    row.foldl (fun out cell => out ++ [if cell ≠ 0 then '#' else ' ']) out =
      out ++ row.map cell_char := by
  induction row generalizing out with
  | nil => simp
  | cons cell row ih =>
    rw [List.foldl_cons, ih]
    simp [cell_char]

theorem grid_fold_eq (g : Grid) (out : List Char) :
    g.foldl
      (fun out row => (row.foldl (fun out cell => out ++ [if cell ≠ 0 then '#' else ' ']) out)
        ++ ['\n']) out =
      out ++ render_spec g := by
  induction g generalizing out with
  | nil => simp [render_spec]
  | cons row g ih =>
    rw [List.foldl_cons, ih, row_fold_eq]
    simp [render_spec]

theorem flatten_uniform_length {α : Type} (L : List (List α)) (m : Nat)
    (h : ∀ l ∈ L, l.length = m) : L.flatten.length = L.length * m := by
  induction L with
  | nil => simp
  | cons l L ih =>
    rw [List.flatten_cons, List.length_append, ih (fun l2 h2 => h l2 (List.mem_cons_of_mem _ h2)),
      h l (List.mem_cons_self _ _), List.length_cons]
    ring

theorem flatten_uniform_getElem? {α : Type} (L : List (List α)) (m : Nat)
    (h : ∀ l ∈ L, l.length = m) (i j : Nat) (hj : j < m) :
    L.flatten[i * m + j]? = (L[i]?).bind (fun l => l[j]?) := by
  induction L generalizing i with
  | nil => simp
  | cons l L ih =>
    have hl := h l (List.mem_cons_self _ _)
    cases i with
    | zero =>
      rw [List.flatten_cons, Nat.zero_mul, Nat.zero_add,
        List.getElem?_append_left (by omega)]
      simp
    | succ i =>
      have hge : l.length ≤ (i + 1) * m + j := by
        rw [hl, Nat.add_mul]; omega
      rw [List.flatten_cons, List.getElem?_append_right hge]
      have : (i + 1) * m + j - l.length = i * m + j := by
        rw [hl, Nat.add_mul]; omega
      rw [this, ih (fun l2 h2 => h l2 (List.mem_cons_of_mem _ h2)) i]
      simp

/-- C8: for every grid the text written by `print_grid` is, for the rows in order, one character per
cell in column order ('#' for a non-zero cell, a space for 0) followed by a newline;
for a grid of `H` rows by `W` columns it has `H*(W+1)` characters and the character at
offset `y*(W+1)+x` is '#' exactly when the cell `(y, x)` is non-zero. -/
theorem print_grid_spec (H W : Int) (g : Grid) (hg : HasDims g H W) :
    (∀ g2 : Grid, print_grid g2 = render_spec g2) ∧
      ((print_grid g).length : Int) = H * (W + 1) ∧
      ∀ y x : Int, 0 ≤ y → y < H → 0 ≤ x → x < W →
        ∃ cell ch, readCell g y x = some cell ∧
          (print_grid g)[(y * (W + 1) + x).toNat]? = some ch ∧
          (ch = '#' ↔ cell ≠ 0) ∧ (ch = ' ' ↔ cell = 0) := by
  have hall : ∀ g2 : Grid, print_grid g2 = render_spec g2 := by
    intro g2
    unfold print_grid
    rw [grid_fold_eq]; rfl
  have heq := hall g
  have hW0 : g ≠ [] → 0 ≤ W := by
    intro hne
    obtain ⟨row, hrow⟩ := List.exists_mem_of_ne_nil g hne
    have := hg.2 row hrow
    omega
  have hrows : ∀ l ∈ g.map (fun row => row.map cell_char ++ ['\n']), l.length = W.toNat + 1 := by
    intro l hl
    simp only [List.mem_map] at hl
    obtain ⟨row, hrow, rfl⟩ := hl
    have := hg.2 row hrow
    simp only [List.length_append, List.length_map, List.length_singleton]
    omega
  refine ⟨hall, ?_, ?_⟩
  · rw [heq, render_spec, flatten_uniform_length _ _ hrows, List.length_map]
    by_cases hne : g = []
    · subst hne
      have := hg.1
      simp only [List.length_nil, Nat.cast_zero] at this
      simp [← this]
    · have h0 := hW0 hne
      have h1 := hg.1
      push_cast
      rw [h1, Int.toNat_of_nonneg h0]
  · intro y x hy0 hy hx0 hx
    obtain ⟨cell, hcell, -⟩ := readCell_some hg hy0 hy hx0 hx
    have hidx : (y * (W + 1) + x).toNat = y.toNat * (W.toNat + 1) + x.toNat := by
      have e1 : y = (y.toNat : Int) := (Int.toNat_of_nonneg hy0).symm
      have e2 : x = (x.toNat : Int) := (Int.toNat_of_nonneg hx0).symm
      have e3 : W = (W.toNat : Int) := (Int.toNat_of_nonneg (by omega)).symm
      rw [e1, e2, e3]
      simp only [Int.toNat_ofNat]
      norm_cast
    have hread : (g[y.toNat]?).bind (fun row => row[x.toNat]?) = some cell := by
      unfold readCell at hcell
      simp only [hy0, hx0, and_self, if_true] at hcell
      cases hrow : g[y.toNat]? with
      | none => simp [hrow] at hcell
      | some row => simpa [hrow] using hcell
    refine ⟨cell, cell_char cell, hcell, ?_, ?_, ?_⟩
    · rw [heq, render_spec, hidx, flatten_uniform_getElem? _ _ hrows _ _ (by omega)]
      cases hrow : g[y.toNat]? with
      | none => simp [hrow] at hread
      | some row =>
        simp only [hrow, Option.some_bind] at hread
        have hlt : x.toNat < row.length := (List.getElem?_eq_some.1 hread).1
        simp only [List.getElem?_map, hrow, Option.map_some', Option.some_bind]
        rw [List.getElem?_append_left (by simpa using hlt), List.getElem?_map, hread]
        rfl
    · unfold cell_char
      by_cases h : cell = 0 <;> simp [h]
    · unfold cell_char
      by_cases h : cell = 0 <;> simp [h]

theorem print_grid_spec_witness :
    (∀ g2 : Grid, print_grid g2 = render_spec g2) ∧
      ((print_grid [[0, 1], [1, 0]]).length : Int) = 2 * (2 + 1) ∧
      ∀ y x : Int, 0 ≤ y → y < 2 → 0 ≤ x → x < 2 →
        ∃ cell ch, readCell [[0, 1], [1, 0]] y x = some cell ∧
          (print_grid [[0, 1], [1, 0]])[(y * (2 + 1) + x).toNat]? = some ch ∧
          (ch = '#' ↔ cell ≠ 0) ∧ (ch = ' ' ↔ cell = 0) :=
  print_grid_spec 2 2 [[0, 1], [1, 0]] (by decide)

/-! ## Driver validation -/

theorem arg_or_eq (atoi : String → Int) (args : List String) (i : Nat) (k d : Int)
    (hk : k = (i : Int) + 1) :
    (if (args.length : Int) + 1 > k then atoi (args.getD i "") else d) =
      arg_or atoi args i d := by
  unfold arg_or
  by_cases h : i < args.length
  · have h2 : (args.length : Int) + 1 > k := by omega
    rw [if_pos h2, List.getD_eq_getElem?_getD, List.getElem?_eq_getElem h]
    rfl
  · have h2 : ¬ ((args.length : Int) + 1 > k) := by omega
    rw [if_neg h2, List.getElem?_eq_none (by omega)]

theorem threads_cond_iff (atoi : String → Int) (m : Int) (args : List String) :
    ((args.length : Int) + 1 > 5 ∧ (atoi (args.getD 4 "") ≤ 0 ∨ atoi (args.getD 4 "") > m)) ↔
      ∃ t, args[4]? = some t ∧ (atoi t ≤ 0 ∨ atoi t > m) := by
  by_cases h : 4 < args.length
  · have h2 : (args.length : Int) + 1 > 5 := by omega
    rw [List.getD_eq_getElem?_getD, List.getElem?_eq_getElem h]
    simp [h2]
  · have h2 : ¬ ((args.length : Int) + 1 > 5) := by omega
    rw [List.getElem?_eq_none (by omega)]
    simp [h2]

theorem main_cases (atoi : String → Int) (m : Int) (rand : Nat → Nat → Int)
    (args : List String) :
    (spec_rejects atoi m args → main atoi m rand args = usage_error) ∧
      (¬ spec_rejects atoi m args → (main atoi m rand args).usage_printed = false ∧
        (main atoi m rand args).exit_status ≠ some 1) := by
  have e0 := arg_or_eq atoi args 0 1 20 (by norm_num)
  have e1 := arg_or_eq atoi args 1 2 20 (by norm_num)
  have e2 := arg_or_eq atoi args 2 3 100 (by norm_num)
  have et := threads_cond_iff atoi m args
  unfold spec_rejects
  by_cases h7 : (args.length : Int) + 1 > 7
  · have : args.length > 6 := by omega
    simp [main, h7, this]
  · have hlen : ¬ args.length > 6 := by omega
    by_cases ht : (args.length : Int) + 1 > 5 ∧
        (atoi (args.getD 4 "") ≤ 0 ∨ atoi (args.getD 4 "") > m)
    · have ht2 := et.1 ht
      constructor
      · intro _
        simp only [main, h7, if_false, if_pos ht]
      · intro hn
        exact absurd (Or.inr (Or.inl ht2)) hn
    · have ht2 : ¬ ∃ t, args[4]? = some t ∧ (atoi t ≤ 0 ∨ atoi t > m) := fun h => ht (et.2 h)
      by_cases hd : arg_or atoi args 0 20 ≤ 0 ∨ arg_or atoi args 1 20 ≤ 0
      · constructor
        · intro _
          simp only [main, h7, if_false, if_neg ht, e0, e1, if_pos hd]
        · intro hn
          rcases hd with hd | hd
          · exact absurd (Or.inr (Or.inr (Or.inl hd))) hn
          · exact absurd (Or.inr (Or.inr (Or.inr (Or.inl hd)))) hn
      · by_cases hg : arg_or atoi args 2 100 < 0
        · constructor
          · intro _
            simp only [main, h7, if_false, if_neg ht, e0, e1, e2, if_neg hd, if_pos hg]
          · intro hn
            exact absurd (Or.inr (Or.inr (Or.inr (Or.inr hg)))) hn
        · constructor
          · intro h
            rcases h with h | h | h | h | h
            · exact absurd h hlen
            · exact absurd h ht2
            · exact absurd (Or.inl h) hd
            · exact absurd (Or.inr h) hd
            · exact absurd h hg
          · intro _
            simp only [main, h7, if_false, if_neg ht, e0, e1, e2, if_neg hd, if_neg hg]
            repeat' split
            all_goals exact ⟨rfl, by simp [aborted]⟩

/-- C9: `main` rejects the configuration (usage text printed, exit status 1, no call
of `update_grid`) if and only if more than 6 arguments are given, or a thread count
is given that is `≤ 0` or above `omp_get_max_threads()`, or the resulting width is
`≤ 0`, or the height is `≤ 0`, or the generation count is `< 0`; in every other case
neither the usage text is printed nor is the exit status 1. In particular a
configuration of at most 6 arguments with positive dimensions, a non-negative
generation count and a thread count that is omitted or between 1 and the maximum
is not rejected. -/
theorem main_rejects_iff (atoi : String → Int) (omp_get_max_threads : Int)
    (rand : Nat → Nat → Int) (args : List String) :
    (((main atoi omp_get_max_threads rand args).usage_printed = true ∧
        (main atoi omp_get_max_threads rand args).exit_status = some 1 ∧
        (main atoi omp_get_max_threads rand args).updates = 0) ↔
      spec_rejects atoi omp_get_max_threads args) ∧
    (¬ spec_rejects atoi omp_get_max_threads args →
      (main atoi omp_get_max_threads rand args).usage_printed = false ∧
      (main atoi omp_get_max_threads rand args).exit_status ≠ some 1) ∧
    (args.length ≤ 6 → 0 < arg_or atoi args 0 20 → 0 < arg_or atoi args 1 20 →
      0 ≤ arg_or atoi args 2 100 →
      (∀ t, args[4]? = some t → 0 < atoi t ∧ atoi t ≤ omp_get_max_threads) →
      (main atoi omp_get_max_threads rand args).usage_printed = false ∧
      (main atoi omp_get_max_threads rand args).exit_status ≠ some 1) := by
  obtain ⟨h1, h2⟩ := main_cases atoi omp_get_max_threads rand args
  refine ⟨⟨?_, ?_⟩, ?_, ?_⟩
  · rintro ⟨hu, -, -⟩
    by_contra hn
    rw [(h2 hn).1] at hu
    exact Bool.false_ne_true hu
  · intro h
    rw [h1 h]
    exact ⟨rfl, rfl, rfl⟩
  · exact h2
  · intro hlen hw hh hn ht
    apply h2
    rintro (h | ⟨t, htt, h⟩ | h | h | h)
    · omega
    · have := ht t htt
      omega
    · omega
    · omega
    · omega

theorem sample_not_rejected :
    ¬ spec_rejects sample_atoi 4 ["3", "3", "1", "0", "1", "7"] := by
  simp [spec_rejects, arg_or, sample_atoi]

theorem main_rejects_iff_witness :
    (main sample_atoi 4 (fun _ _ => 0) ["3", "3", "1", "0", "1", "7"]).usage_printed = false ∧
      (main sample_atoi 4 (fun _ _ => 0) ["3", "3", "1", "0", "1", "7"]).exit_status ≠ some 1 :=
  (main_rejects_iff sample_atoi 4 (fun _ _ => 0) ["3", "3", "1", "0", "1", "7"]).2.1
    sample_not_rejected

/-- A complete run of the model of `main`: a 3 by 3 grid, one generation, display
interval 1, one thread; the generator returns its call index. -/
theorem main_sample_run :
    main sample_atoi 4 (fun _ k => k) ["3", "3", "1", "1", "1", "7"] =
      { exit_status := some 0, usage_printed := false, updates := 1,
        playback := [[[0, 1, 0], [1, 0, 1], [0, 1, 0]]] } := by
  decide

end GameOfLife
